import Mathlib

/-!
Shallow embedding of the multi-camera processing core of this repository,
translated from `src/core/flexible_multi_camera_processor.py` and
`src/core/multi_camera_processor.py`.

Modelling conventions:
* Python lists of use-case names are Lean `List String`.
* Python dicts are association lists; `dictSet`/`dictGetD` reproduce dict
  assignment (update in place if the key exists, else append) and
  `dict.get(k, default)`.
* External collaborators (YOLO model, capability model objects, OpenCV
  capture, database, GCP uploader, logger) are opaque.  Their behaviour
  during one call is an explicit input: `CapBehaviour` gives each enabled
  capability's outcome for a frame (`none` = the call raised), `CycleOutcome`
  gives the outcome of the I/O prefix of `process_frame`, and a
  `String → Bool` oracle says whether a capability constructor call succeeds.
* Image buffers, zone/rule payloads, timestamps, fps statistics and log
  output do not influence the control flow modelled here and are elided.
-/

namespace MultiCam

/-- The keys of `CAMERA_MODEL_MAPPING` (flexible_multi_camera_processor.py,
lines 32-38): the five use-case identifiers that map to a model class. -/
def knownUseCases : List String :=
  ["people_counting", "ppe_detection", "tailgating", "intrusion", "loitering"]

/-- A detection record produced by a capability is opaque; each is a token. -/
abbrev Detection := Nat

/-- Behaviour of the external detection models during one frame cycle:
`cap uc = none` models `model.process_frame(...)` raising an exception for
use case `uc`; `cap uc = some ds` models a normal return whose detections
sequence is `ds`. -/
abbrev CapBehaviour := String → Option (List Detection)

/-- Python dict assignment `m[k] = v` on an association list (keys are unique,
as in a Python dict): if the key is present its value is overwritten in
place, otherwise the pair is appended at the end. -/
def dictSet {β : Type} (m : List (String × β)) (k : String) (v : β) :
    List (String × β) :=
  match m with
  | [] => [(k, v)]
  | p :: rest => if p.1 = k then (k, v) :: rest else p :: dictSet rest k v

/-- Python `m.get(k, d)` on an association list. -/
def dictGetD {β : Type} (m : List (String × β)) (k : String) (d : β) : β :=
  match m with
  | [] => d
  | p :: rest => if p.1 = k then p.2 else dictGetD rest k d

/-- A camera configuration entry as consumed by `FlexibleCameraStream.__init__`
(camera_id, name, stream_url, enabled_use_cases, available_use_cases); the
zone and rule payloads are opaque to the modelled control flow. -/
structure CameraConfig where
  camera_id : String
  name : String
  stream_url : String
  enabled_use_cases : List String
  available_use_cases : List String
  deriving Repr, DecidableEq

/-- The state of a `FlexibleCameraStream`.  `camera_models` is the key list of
the `self.camera_models` dict (the model objects themselves are external);
`model_enabled` is the `self.model_enabled` dict. -/
structure FlexibleCameraStream where
  camera_id : String
  camera_name : String
  stream_url : String
  enabled_use_cases : List String
  available_use_cases : List String
  camera_models : List String
  model_enabled : List (String × Bool)
  running : Bool
  frame_count : Nat
  deriving Repr, DecidableEq

/-- `FlexibleCameraStream.__init__` (lines 43-82). -/
def FlexibleCameraStream.ofConfig (cfg : CameraConfig) : FlexibleCameraStream :=
  { camera_id := cfg.camera_id
    camera_name := cfg.name
    stream_url := cfg.stream_url
    enabled_use_cases := cfg.enabled_use_cases
    available_use_cases := cfg.available_use_cases
    camera_models := []
    model_enabled := []
    running := false
    frame_count := 0 }

/-- The `for use_case in self.available_use_cases` loop of
`FlexibleCameraStream.initialize` (lines 90-126).  `ctorOk uc` says whether
the capability constructor call `model_class(...)` for `uc` returns normally;
when it raises, the exception escapes the loop to the outer `except`, so the
method returns `False` with the mutations made so far retained.  Use cases
outside `CAMERA_MODEL_MAPPING` are logged and skipped. -/
def initLoop (ctorOk : String → Bool) (s : FlexibleCameraStream) :
    List String → FlexibleCameraStream × Bool
  | [] => (s, true)
  | uc :: rest =>
    if uc ∈ knownUseCases then
      if ctorOk uc then
        initLoop ctorOk
          { s with
            camera_models :=
              if uc ∈ s.camera_models then s.camera_models
              else s.camera_models ++ [uc]
            model_enabled :=
              dictSet s.model_enabled uc (decide (uc ∈ s.enabled_use_cases)) }
          rest
      else (s, false)
    else initLoop ctorOk s rest

/-- `FlexibleCameraStream.initialize` (lines 84-136), restricted to its
state-relevant effect: runs the construction loop over `available_use_cases`
and returns the success flag (`True` when the loop completes, `False` when a
constructor raised). -/
def FlexibleCameraStream.initializeWorker (s : FlexibleCameraStream)
    (ctorOk : String → Bool) : FlexibleCameraStream × Bool :=
  initLoop ctorOk s s.available_use_cases

/-- `FlexibleCameraStream.enable_use_case` (lines 138-154): guarded on
membership in `self.camera_models`; on success sets the enabled flag and
appends to `enabled_use_cases` if not already present. -/
def FlexibleCameraStream.enable_use_case (s : FlexibleCameraStream)
    (uc : String) : FlexibleCameraStream × Bool :=
  if uc ∈ s.camera_models then
    ({ s with
       model_enabled := dictSet s.model_enabled uc true
       enabled_use_cases :=
         if uc ∈ s.enabled_use_cases then s.enabled_use_cases
         else s.enabled_use_cases ++ [uc] }, true)
  else (s, false)

/-- `FlexibleCameraStream.disable_use_case` (lines 156-172): guarded on
membership in `self.camera_models`; on success clears the enabled flag and
removes the first occurrence from `enabled_use_cases` if present. -/
def FlexibleCameraStream.disable_use_case (s : FlexibleCameraStream)
    (uc : String) : FlexibleCameraStream × Bool :=
  if uc ∈ s.camera_models then
    ({ s with
       model_enabled := dictSet s.model_enabled uc false
       enabled_use_cases := s.enabled_use_cases.erase uc }, true)
  else (s, false)

/-- `FlexibleCameraStream.get_enabled_use_cases` (lines 174-177). -/
def FlexibleCameraStream.get_enabled_use_cases (s : FlexibleCameraStream) :
    List String :=
  s.enabled_use_cases

/-- `FlexibleCameraStream.get_available_use_cases` (lines 179-181):
`list(self.camera_models.keys())`. -/
def FlexibleCameraStream.get_available_use_cases (s : FlexibleCameraStream) :
    List String :=
  s.camera_models

/-- The enabled-model snapshot taken under the lock in `process_frame`
(lines 228-230): `{uc for uc in camera_models if model_enabled.get(uc, False)}`,
in dict iteration order. -/
def FlexibleCameraStream.enabledModels (s : FlexibleCameraStream) :
    List String :=
  s.camera_models.filter (fun uc => dictGetD s.model_enabled uc false)

/-- A per-frame result record as built in `process_frame` (lines 267-277).
The `annotated_frame` image buffer and `timestamp` are opaque and elided. -/
structure FrameResult where
  camera_id : String
  camera_name : String
  enabled_use_cases : List String
  frame_count : Nat
  all_events : List (String × List Detection)
  total_events : Nat
  has_events : Bool
  deriving Repr, DecidableEq

/-- The fan-out loop of `process_frame` (lines 232-253): for each enabled use
case, call its model inside `try`; an exception (`cap uc = none`) is logged
and skipped; a truthy (non-empty) detections sequence is recorded in
`all_events` and its length added to `total_events`. -/
def fanOut (cap : CapBehaviour) :
    List String → List (String × List Detection) × Nat
  | [] => ([], 0)
  | uc :: rest =>
    match cap uc with
    | none => fanOut cap rest
    | some ds =>
      if ds.isEmpty then fanOut cap rest
      else
        let (es, t) := fanOut cap rest
        ((uc, ds) :: es, ds.length + t)

/-- Outcome of the I/O prefix of one `process_frame` call:
`readFail` = the capture is closed or `cap.read()` returned `ret = False`
(lines 210-216, before the counter increment); `inferFail` = a raise after
the increment (e.g. from `shared_model(frame)`, line 221), caught by the
outer `except` (line 281); `ok` = the cycle reaches the fan-out. -/
inductive CycleOutcome where
  | readFail
  | inferFail
  | ok
  deriving Repr, DecidableEq

/-- `FlexibleCameraStream.process_frame` (lines 207-283).  Returns the updated
state and `some result` exactly when the source returns `True, result`. -/
def FlexibleCameraStream.process_frame (s : FlexibleCameraStream)
    (outcome : CycleOutcome) (cap : CapBehaviour) :
    FlexibleCameraStream × Option FrameResult :=
  match outcome with
  | .readFail => (s, none)
  | .inferFail => ({ s with frame_count := s.frame_count + 1 }, none)
  | .ok =>
    let s1 := { s with frame_count := s.frame_count + 1 }
    let em := s1.enabledModels
    let res := fanOut cap em
    (s1,
     some
       { camera_id := s1.camera_id
         camera_name := s1.camera_name
         enabled_use_cases := em
         frame_count := s1.frame_count
         all_events := res.1
         total_events := res.2
         has_events := !res.1.isEmpty })

/-- One observable operation on a camera worker: a frame cycle (with the
environment's outcome and capability behaviour for that cycle), or a runtime
enable/disable call. -/
inductive WorkerOp where
  | cycle (outcome : CycleOutcome) (cap : CapBehaviour)
  | enable (uc : String)
  | disable (uc : String)

/-- Whether an operation is a frame cycle. -/
def WorkerOp.isCycle : WorkerOp → Bool
  | .cycle _ _ => true
  | .enable _ => false
  | .disable _ => false

/-- Effect of one operation on the worker state; cycles may emit a result. -/
def FlexibleCameraStream.step (s : FlexibleCameraStream) :
    WorkerOp → FlexibleCameraStream × Option FrameResult
  | .cycle o cap => s.process_frame o cap
  | .enable uc => ((s.enable_use_case uc).1, none)
  | .disable uc => ((s.disable_use_case uc).1, none)

/-- Run a sequence of operations, collecting the emitted `FrameResult`s in
order. -/
def runOps (s : FlexibleCameraStream) :
    List WorkerOp → FlexibleCameraStream × List FrameResult
  | [] => (s, [])
  | op :: ops =>
    let p := s.step op
    let q := runOps p.1 ops
    (q.1, p.2.toList ++ q.2)

/-- Calling `disable_use_case` for every key of `camera_models`, in order:
"all use cases for the camera are disabled". -/
def FlexibleCameraStream.disableAll (s : FlexibleCameraStream) :
    FlexibleCameraStream :=
  s.camera_models.foldl (fun st uc => (st.disable_use_case uc).1) s

/-- The CameraConfig well-formedness the spec attaches to the data model:
`enabled_use_cases ⊆ available_use_cases`, together with the derived fact
that every constructed model key lies in `available_use_cases`. -/
def FlexibleCameraStream.Wf (s : FlexibleCameraStream) : Prop :=
  s.enabled_use_cases ⊆ s.available_use_cases ∧
    s.camera_models ⊆ s.available_use_cases

/-! ### The event queue and the orchestrator -/

/-- The event queue: `queue.Queue(maxsize)`; Python treats `maxsize ≤ 0` as
unbounded.  `items` holds the queued frame results in FIFO order. -/
structure EventQueue where
  maxsize : Nat
  items : List FrameResult
  deriving Repr, DecidableEq

/-- Whether a `put` would find the queue full (Python `Queue.full` semantics:
never full when `maxsize` is 0). -/
def EventQueue.full (q : EventQueue) : Bool :=
  decide (0 < q.maxsize ∧ q.maxsize ≤ q.items.length)

/-- The spec's notion of a bounded queue: a positive capacity bound. -/
def EventQueue.bounded (q : EventQueue) : Prop :=
  0 < q.maxsize

/-- `Queue.put(item)` with the default `block=True`: on a full bounded queue
the producer blocks (modelled as `none`); otherwise the item is appended. -/
def EventQueue.put (q : EventQueue) (r : FrameResult) : Option EventQueue :=
  if q.full then none else some ⟨q.maxsize, q.items ++ [r]⟩

/-- The enqueue step of `_camera_processing_worker` (lines 415-419): the
result is put on the event queue iff the cycle succeeded and
`result['has_events']`. -/
def workerEnqueue (q : EventQueue) (res : Option FrameResult) :
    Option EventQueue :=
  match res with
  | some r => if r.has_events then q.put r else some q
  | none => some q

/-- The state of `FlexibleMultiCameraProcessor` (lines 321-363):
`camera_streams` is the `{camera_id: FlexibleCameraStream}` dict;
DB handler, uploader and shared YOLO model are external and elided. -/
structure FlexibleMultiCameraProcessor where
  camera_streams : List (String × FlexibleCameraStream)
  camera_configs : List CameraConfig
  running : Bool
  event_queue : EventQueue
  total_cameras : Nat
  deriving Repr, DecidableEq

/-- `FlexibleMultiCameraProcessor.__init__`: empty stream dict, no configs,
`running = False`, `event_queue = queue.Queue()` (maxsize 0, unbounded). -/
def FlexibleMultiCameraProcessor.new : FlexibleMultiCameraProcessor :=
  { camera_streams := []
    camera_configs := []
    running := false
    event_queue := ⟨0, []⟩
    total_cameras := 0 }

/-- `FlexibleMultiCameraProcessor.load_camera_configurations` (lines 365-380):
records the configs, counts them, and for each entry stores a fresh
`FlexibleCameraStream` under its `camera_id` in the stream dict.  No
validation is performed and nothing is started. -/
def FlexibleMultiCameraProcessor.load_camera_configurations
    (p : FlexibleMultiCameraProcessor) (configs : List CameraConfig) :
    FlexibleMultiCameraProcessor :=
  { p with
    camera_configs := configs
    total_cameras := configs.length
    camera_streams :=
      configs.foldl
        (fun acc c => dictSet acc c.camera_id (FlexibleCameraStream.ofConfig c))
        p.camera_streams }

/-! ### The event-drain shutdown path -/

/-- The loop guard of `_event_saving_worker` (line 543):
`while self.running or not self.event_queue.empty()`. -/
def eventWorkerGuard (running : Bool) (queued : List FrameResult) : Bool :=
  running || !queued.isEmpty

/-- `_event_saving_worker` executed after `stop()` has set `running = False`
and all producers have exited: each iteration re-checks the guard, gets one
item, saves it, and loops; it exits only once the queue is empty.  Returns
the saved items in order and the number of get-iterations performed. -/
def eventSavingDrain : List FrameResult → List FrameResult × Nat
  | [] => ([], 0)
  | r :: rest =>
    let p := eventSavingDrain rest
    (r :: p.1, p.2 + 1)

/-- The per-worker-thread join timeout used by `stop()` (line 629):
`thread.join(timeout=5.0)`. -/
def workerJoinTimeoutSeconds : Option Nat := some 5

/-- `stop()` then calls `self.event_queue.join()` (line 634) with no timeout
(Python `Queue.join` accepts none): it returns only after the drain has
processed every pending item, i.e. after this many consumer iterations. -/
def stopQueueJoinIterations (pending : List FrameResult) : Nat :=
  (eventSavingDrain pending).2

/-! ### The non-flexible `CameraStream` of `multi_camera_processor.py` -/

/-- The state of the single-use-case `CameraStream`
(`multi_camera_processor.py`); only the fields relevant to frame sequencing
are modelled. -/
structure CameraStream where
  camera_id : String
  use_case : String
  frame_count : Nat
  deriving Repr, DecidableEq

/-- A result dict built by `CameraStream.process_frame` (lines 170-179). -/
structure SingleResult where
  camera_id : String
  use_case : String
  frame_count : Nat
  detections : List Detection
  has_events : Bool
  deriving Repr, DecidableEq

/-- `CameraStream.process_frame` (lines 138-185): same shape as the flexible
variant, with a single model; `inferFail` covers a raise from
`shared_model(frame)` or `camera_model.process_frame(...)` after the counter
increment, caught by the outer `except`. -/
def CameraStream.process_frame (s : CameraStream) (outcome : CycleOutcome)
    (detections : List Detection) : CameraStream × Option SingleResult :=
  match outcome with
  | .readFail => (s, none)
  | .inferFail => ({ s with frame_count := s.frame_count + 1 }, none)
  | .ok =>
    let s1 := { s with frame_count := s.frame_count + 1 }
    (s1,
     some
       { camera_id := s1.camera_id
         use_case := s1.use_case
         frame_count := s1.frame_count
         detections := detections
         has_events := !detections.isEmpty })

/-- Run a sequence of cycles of the single-use-case stream, collecting the
emitted results in order. -/
def runSingleCycles (s : CameraStream) :
    List (CycleOutcome × List Detection) → CameraStream × List SingleResult
  | [] => (s, [])
  | c :: cs =>
    let p := s.process_frame c.1 c.2
    let q := runSingleCycles p.1 cs
    (q.1, p.2.toList ++ q.2)

/-! ### Concrete inputs used by witnesses and counterexamples -/

/-- A two-use-case configuration in the shape of `create_flexible_camera_config`
(lines 657-705): both use cases available, one enabled. -/
def c1cfg : CameraConfig :=
  { camera_id := "cam_001"
    name := "Main Entrance"
    stream_url := "rtsp://example/stream"
    enabled_use_cases := ["people_counting"]
    available_use_cases := ["people_counting", "ppe_detection"] }

/-- A worker with people_counting available, constructed, and already
enabled. -/
def c7state : FlexibleCameraStream :=
  ((FlexibleCameraStream.ofConfig
    { camera_id := "cam_001"
      name := "Main Entrance"
      stream_url := "rtsp://example/stream"
      enabled_use_cases := ["people_counting"]
      available_use_cases := ["people_counting"] }).initializeWorker
    (fun _ => true)).1

/-- A worker with both use cases available, constructed, and enabled. -/
def c4state : FlexibleCameraStream :=
  ((FlexibleCameraStream.ofConfig
    { camera_id := "cam_001"
      name := "Main Entrance"
      stream_url := "rtsp://example/stream"
      enabled_use_cases := ["people_counting", "ppe_detection"]
      available_use_cases := ["people_counting", "ppe_detection"] }).initializeWorker
    (fun _ => true)).1

/-- A cycle behaviour where ppe_detection raises and every other capability
returns one detection. -/
def c4cap : CapBehaviour :=
  fun uc => if uc = "ppe_detection" then none else some [7]

/-- A concrete event-bearing frame result. -/
def r0 : FrameResult :=
  { camera_id := "cam_001"
    camera_name := "Main Entrance"
    enabled_use_cases := ["people_counting"]
    frame_count := 1
    all_events := [("people_counting", [0])]
    total_events := 1
    has_events := true }

/-- Configuration whose two available use cases are both known. -/
def c8cfg : CameraConfig :=
  { camera_id := "cam_001"
    name := "Main Entrance"
    stream_url := "rtsp://example/stream"
    enabled_use_cases := []
    available_use_cases := ["people_counting", "ppe_detection"] }

/-- Constructor behaviour: the people_counting model constructor raises,
every other constructor succeeds. -/
def c8ctor : String → Bool :=
  fun uc => uc != "people_counting"

/-- A configuration violating the CameraConfig invariant:
`enabled_use_cases ⊄ available_use_cases`. -/
def c9bad : CameraConfig :=
  { camera_id := "cam_x"
    name := "Bad Camera"
    stream_url := "rtsp://example/stream"
    enabled_use_cases := ["loitering"]
    available_use_cases := [] }

/-- A configuration listing an identifier outside the five known use cases
as available. -/
def c10cfg : CameraConfig :=
  { camera_id := "cam_001"
    name := "Main Entrance"
    stream_url := "rtsp://example/stream"
    enabled_use_cases := ["people_counting"]
    available_use_cases := ["people_counting", "face_recognition"] }

/-! ## Helper lemmas -/

theorem dictGetD_dictSet_self {β : Type} (m : List (String × β)) (k : String)
    (v d : β) : dictGetD (dictSet m k v) k d = v := by
  induction m with
  | nil => simp [dictSet, dictGetD]
  | cons p rest ih =>
    by_cases hp : p.1 = k
    · simp [dictSet, dictGetD, hp]
    · simp [dictSet, dictGetD, hp, ih]

theorem dictGetD_dictSet_ne {β : Type} (m : List (String × β)) {k k' : String}
    (v d : β) (h : k' ≠ k) :
    dictGetD (dictSet m k v) k' d = dictGetD m k' d := by
  induction m with
  | nil => simp [dictSet, dictGetD, h, Ne.symm h]
  | cons p rest ih =>
    by_cases hp : p.1 = k
    · simp [dictSet, dictGetD, hp, Ne.symm h]
    · by_cases hp' : p.1 = k'
      · simp [dictSet, dictGetD, hp, hp', h]
      · simp [dictSet, dictGetD, hp, hp', ih]

theorem dictSet_of_not_mem {β : Type} (m : List (String × β)) (k : String)
    (v : β) (h : ∀ p ∈ m, p.1 ≠ k) : dictSet m k v = m ++ [(k, v)] := by
  induction m with
  | nil => simp [dictSet]
  | cons p rest ih =>
    have hp : p.1 ≠ k := h p (List.mem_cons_self _ _)
    simp only [dictSet, hp, if_false, List.cons_append, List.cons.injEq,
      true_and]
    exact ih fun q hq => h q (List.mem_cons_of_mem _ hq)

theorem fanOut_fst_eq_nil_iff (cap : CapBehaviour) (l : List String) :
    (fanOut cap l).1 = [] ↔ (fanOut cap l).2 = 0 := by
  induction l with
  | nil => simp [fanOut]
  | cons uc rest ih =>
    cases hc : cap uc with
    | none => simpa [fanOut, hc] using ih
    | some ds =>
      by_cases hd : ds.isEmpty
      · simpa [fanOut, hc, hd] using ih
      · have hlen : ds.length ≠ 0 := by
          simpa [List.isEmpty_iff_length_eq_zero] using hd
        simp [fanOut, hc, hd, hlen]

theorem fanOut_key_some (cap : CapBehaviour) (l : List String) (uc : String)
    (ds : List Detection) (h : (uc, ds) ∈ (fanOut cap l).1) :
    cap uc = some ds := by
  induction l with
  | nil => simp [fanOut] at h
  | cons v rest ih =>
    cases hc : cap v with
    | none =>
      simp only [fanOut, hc] at h
      exact ih h
    | some es =>
      by_cases hd : es.isEmpty
      · simp only [fanOut, hc, hd, if_true] at h
        exact ih h
      · simp only [fanOut, hc, hd, if_false] at h
        rcases List.mem_cons.mp h with heq | hmem
        · cases heq
          exact hc
        · exact ih hmem

theorem fanOut_filter_of_none (cap : CapBehaviour) (l : List String)
    (u : String) (h : cap u = none) :
    fanOut cap (l.filter (fun v => v != u)) = fanOut cap l := by
  induction l with
  | nil => rfl
  | cons v rest ih =>
    by_cases hv : v = u
    · subst hv
      simp [List.filter, fanOut, h, ih]
    · have : (v != u) = true := by simpa using hv
      cases hc : cap v with
      | none => simp [List.filter, this, fanOut, hc, ih]
      | some es => simp [List.filter, this, fanOut, hc, ih]

theorem enable_not_available (s : FlexibleCameraStream) (uc : String)
    (h : uc ∉ s.camera_models) : s.enable_use_case uc = (s, false) := by
  simp [FlexibleCameraStream.enable_use_case, h]

theorem disable_not_available (s : FlexibleCameraStream) (uc : String)
    (h : uc ∉ s.camera_models) : s.disable_use_case uc = (s, false) := by
  simp [FlexibleCameraStream.disable_use_case, h]

theorem enable_fst_available (s : FlexibleCameraStream) (uc : String) :
    ((s.enable_use_case uc).1).available_use_cases = s.available_use_cases := by
  unfold FlexibleCameraStream.enable_use_case
  split <;> rfl

theorem enable_fst_camera_models (s : FlexibleCameraStream) (uc : String) :
    ((s.enable_use_case uc).1).camera_models = s.camera_models := by
  unfold FlexibleCameraStream.enable_use_case
  split <;> rfl

theorem enable_fst_frame_count (s : FlexibleCameraStream) (uc : String) :
    ((s.enable_use_case uc).1).frame_count = s.frame_count := by
  unfold FlexibleCameraStream.enable_use_case
  split <;> rfl

theorem enable_fst_enabled_of_mem (s : FlexibleCameraStream) (uc : String)
    (h : uc ∈ s.camera_models) :
    ((s.enable_use_case uc).1).enabled_use_cases =
      if uc ∈ s.enabled_use_cases then s.enabled_use_cases
      else s.enabled_use_cases ++ [uc] := by
  simp [FlexibleCameraStream.enable_use_case, h]

theorem disable_fst_available (s : FlexibleCameraStream) (uc : String) :
    ((s.disable_use_case uc).1).available_use_cases = s.available_use_cases := by
  unfold FlexibleCameraStream.disable_use_case
  split <;> rfl

theorem disable_fst_camera_models (s : FlexibleCameraStream) (uc : String) :
    ((s.disable_use_case uc).1).camera_models = s.camera_models := by
  unfold FlexibleCameraStream.disable_use_case
  split <;> rfl

theorem disable_fst_frame_count (s : FlexibleCameraStream) (uc : String) :
    ((s.disable_use_case uc).1).frame_count = s.frame_count := by
  unfold FlexibleCameraStream.disable_use_case
  split <;> rfl

theorem disable_fst_enabled_of_mem (s : FlexibleCameraStream) (uc : String)
    (h : uc ∈ s.camera_models) :
    ((s.disable_use_case uc).1).enabled_use_cases =
      s.enabled_use_cases.erase uc := by
  simp [FlexibleCameraStream.disable_use_case, h]

theorem process_frame_fst_available (s : FlexibleCameraStream)
    (o : CycleOutcome) (cap : CapBehaviour) :
    ((s.process_frame o cap).1).available_use_cases = s.available_use_cases := by
  cases o <;> rfl

theorem process_frame_fst_camera_models (s : FlexibleCameraStream)
    (o : CycleOutcome) (cap : CapBehaviour) :
    ((s.process_frame o cap).1).camera_models = s.camera_models := by
  cases o <;> rfl

theorem process_frame_fst_enabled (s : FlexibleCameraStream)
    (o : CycleOutcome) (cap : CapBehaviour) :
    ((s.process_frame o cap).1).enabled_use_cases = s.enabled_use_cases := by
  cases o <;> rfl

theorem process_frame_fst_enabledModels (s : FlexibleCameraStream)
    (o : CycleOutcome) (cap : CapBehaviour) :
    ((s.process_frame o cap).1).enabledModels = s.enabledModels := by
  cases o <;> rfl

theorem process_frame_fst_frame_count_le (s : FlexibleCameraStream)
    (o : CycleOutcome) (cap : CapBehaviour) :
    s.frame_count ≤ ((s.process_frame o cap).1).frame_count := by
  cases o <;> simp [FlexibleCameraStream.process_frame]

/-- A cycle emits a result only in the `ok` case, and the emitted
`frame_count` is the post-increment counter value. -/
theorem process_frame_emit (s : FlexibleCameraStream) (o : CycleOutcome)
    (cap : CapBehaviour) (r : FrameResult)
    (h : (s.process_frame o cap).2 = some r) :
    r.frame_count = s.frame_count + 1 ∧
      ((s.process_frame o cap).1).frame_count = s.frame_count + 1 := by
  cases o with
  | readFail => simp [FlexibleCameraStream.process_frame] at h
  | inferFail => simp [FlexibleCameraStream.process_frame] at h
  | ok =>
    simp only [FlexibleCameraStream.process_frame, Option.some.injEq] at h
    subst h
    exact ⟨rfl, rfl⟩

theorem step_fst_available (s : FlexibleCameraStream) (op : WorkerOp) :
    ((s.step op).1).available_use_cases = s.available_use_cases := by
  cases op with
  | cycle o cap => exact process_frame_fst_available s o cap
  | enable uc => exact enable_fst_available s uc
  | disable uc => exact disable_fst_available s uc

theorem step_fst_camera_models (s : FlexibleCameraStream) (op : WorkerOp) :
    ((s.step op).1).camera_models = s.camera_models := by
  cases op with
  | cycle o cap => exact process_frame_fst_camera_models s o cap
  | enable uc => exact enable_fst_camera_models s uc
  | disable uc => exact disable_fst_camera_models s uc

theorem step_fst_frame_count_le (s : FlexibleCameraStream) (op : WorkerOp) :
    s.frame_count ≤ ((s.step op).1).frame_count := by
  cases op with
  | cycle o cap => exact process_frame_fst_frame_count_le s o cap
  | enable uc => exact (enable_fst_frame_count s uc).ge
  | disable uc => exact (disable_fst_frame_count s uc).ge

theorem step_emit (s : FlexibleCameraStream) (op : WorkerOp) (r : FrameResult)
    (h : (s.step op).2 = some r) :
    r.frame_count = s.frame_count + 1 ∧
      ((s.step op).1).frame_count = s.frame_count + 1 := by
  cases op with
  | cycle o cap => exact process_frame_emit s o cap r h
  | enable uc => simp [FlexibleCameraStream.step] at h
  | disable uc => simp [FlexibleCameraStream.step] at h

/-- Every mutation of the worker preserves the configuration invariant. -/
theorem step_Wf (s : FlexibleCameraStream) (op : WorkerOp) (hwf : s.Wf) :
    ((s.step op).1).Wf := by
  obtain ⟨hen, hcm⟩ := hwf
  cases op with
  | cycle o cap =>
    simp only [FlexibleCameraStream.step]
    constructor
    · rw [process_frame_fst_enabled, process_frame_fst_available]
      exact hen
    · rw [process_frame_fst_camera_models, process_frame_fst_available]
      exact hcm
  | enable uc =>
    simp only [FlexibleCameraStream.step]
    by_cases h : uc ∈ s.camera_models
    · constructor
      · rw [enable_fst_enabled_of_mem s uc h, enable_fst_available]
        by_cases he : uc ∈ s.enabled_use_cases
        · simpa [he] using hen
        · simp only [he, if_false]
          intro x hx
          rcases List.mem_append.mp hx with hx | hx
          · exact hen hx
          · rcases List.mem_singleton.mp hx with rfl
            exact hcm h
      · rw [enable_fst_camera_models, enable_fst_available]
        exact hcm
    · simp only [FlexibleCameraStream.step, enable_not_available s uc h]
      exact ⟨hen, hcm⟩
  | disable uc =>
    simp only [FlexibleCameraStream.step]
    by_cases h : uc ∈ s.camera_models
    · constructor
      · rw [disable_fst_enabled_of_mem s uc h, disable_fst_available]
        exact fun x hx => hen (List.erase_subset uc s.enabled_use_cases hx)
      · rw [disable_fst_camera_models, disable_fst_available]
        exact hcm
    · simp only [FlexibleCameraStream.step, disable_not_available s uc h]
      exact ⟨hen, hcm⟩

theorem runOps_Wf (ops : List WorkerOp) (s : FlexibleCameraStream)
    (hwf : s.Wf) : ((runOps s ops).1).Wf := by
  induction ops generalizing s with
  | nil => exact hwf
  | cons op rest ih => exact ih _ (step_Wf s op hwf)

theorem initLoop_fst_enabled (ctorOk : String → Bool) (l : List String)
    (s : FlexibleCameraStream) :
    ((initLoop ctorOk s l).1).enabled_use_cases = s.enabled_use_cases := by
  induction l generalizing s with
  | nil => rfl
  | cons uc rest ih =>
    by_cases hk : uc ∈ knownUseCases
    · by_cases hc : ctorOk uc
      · simpa [initLoop, hk, hc] using ih _
      · simp [initLoop, hk, hc]
    · simpa [initLoop, hk] using ih _

theorem initLoop_fst_available (ctorOk : String → Bool) (l : List String)
    (s : FlexibleCameraStream) :
    ((initLoop ctorOk s l).1).available_use_cases = s.available_use_cases := by
  induction l generalizing s with
  | nil => rfl
  | cons uc rest ih =>
    by_cases hk : uc ∈ knownUseCases
    · by_cases hc : ctorOk uc
      · simpa [initLoop, hk, hc] using ih _
      · simp [initLoop, hk, hc]
    · simpa [initLoop, hk] using ih _

/-- Model keys produced by the construction loop come from the processed list
(and only its known entries) or were already present. -/
theorem initLoop_camera_models_mem (ctorOk : String → Bool) (l : List String)
    (s : FlexibleCameraStream) (uc : String)
    (h : uc ∈ ((initLoop ctorOk s l).1).camera_models) :
    uc ∈ s.camera_models ∨ (uc ∈ l ∧ uc ∈ knownUseCases) := by
  induction l generalizing s with
  | nil => exact Or.inl h
  | cons v rest ih =>
    by_cases hk : v ∈ knownUseCases
    · by_cases hc : ctorOk v
      · simp only [initLoop, hk, if_true, hc] at h
        rcases ih _ h with hin | ⟨hl, hkn⟩
        · by_cases hv : v ∈ s.camera_models
          · simp only [hv, if_true] at hin
            exact Or.inl hin
          · simp only [hv, if_false, List.mem_append,
              List.mem_singleton] at hin
            rcases hin with hin | rfl
            · exact Or.inl hin
            · exact Or.inr ⟨List.mem_cons_self _ _, hk⟩
        · exact Or.inr ⟨List.mem_cons_of_mem _ hl, hkn⟩
      · simp only [initLoop, hk, if_true, hc, if_false] at h
        exact Or.inl h
    · simp only [initLoop, hk, if_false] at h
      rcases ih _ h with hin | ⟨hl, hkn⟩
      · exact Or.inl hin
      · exact Or.inr ⟨List.mem_cons_of_mem _ hl, hkn⟩

theorem initLoop_camera_models_mono (ctorOk : String → Bool) (l : List String)
    (s : FlexibleCameraStream) (uc : String) (h : uc ∈ s.camera_models) :
    uc ∈ ((initLoop ctorOk s l).1).camera_models := by
  induction l generalizing s with
  | nil => exact h
  | cons v rest ih =>
    by_cases hk : v ∈ knownUseCases
    · by_cases hc : ctorOk v
      · simp only [initLoop, hk, if_true, hc]
        apply ih
        by_cases hv : v ∈ s.camera_models
        · simpa [hv] using h
        · simp [hv, List.mem_append, h]
      · simpa [initLoop, hk, hc] using h
    · simp only [initLoop, hk, if_false]
      exact ih _ h

/-- The construction loop reports success iff every known use case it reaches
has a succeeding constructor; the first raising constructor aborts it. -/
theorem initLoop_snd_iff (ctorOk : String → Bool) (l : List String)
    (s : FlexibleCameraStream) :
    (initLoop ctorOk s l).2 = true ↔
      ∀ uc ∈ l, uc ∈ knownUseCases → ctorOk uc = true := by
  induction l generalizing s with
  | nil => simp [initLoop]
  | cons v rest ih =>
    by_cases hk : v ∈ knownUseCases
    · by_cases hc : ctorOk v
      · simp only [initLoop, hk, if_true, hc]
        rw [ih]
        constructor
        · intro h uc hm hkn
          rcases List.mem_cons.mp hm with rfl | hm
          · exact hc
          · exact h uc hm hkn
        · intro h uc hm hkn
          exact h uc (List.mem_cons_of_mem _ hm) hkn
      · simp only [initLoop, hk, if_true, hc, if_false]
        constructor
        · intro h
          exact absurd h (by simp)
        · intro h
          exact absurd (h v (List.mem_cons_self _ _) hk) (by simp [hc])
    · simp only [initLoop, hk, if_false]
      rw [ih]
      constructor
      · intro h uc hm hkn
        rcases List.mem_cons.mp hm with rfl | hm
        · exact absurd hkn hk
        · exact h uc hm hkn
      · intro h uc hm hkn
        exact h uc (List.mem_cons_of_mem _ hm) hkn

/-- Known entries whose constructor succeeds do end up with a model. -/
theorem initLoop_camera_models_complete (ctorOk : String → Bool)
    (l : List String) :
    ∀ (s : FlexibleCameraStream),
      (∀ v ∈ l, v ∈ knownUseCases → ctorOk v = true) →
      ∀ uc ∈ l, uc ∈ knownUseCases →
        uc ∈ ((initLoop ctorOk s l).1).camera_models := by
  induction l with
  | nil => intro s _ uc hm; simp at hm
  | cons v rest ih =>
    intro s hsucc uc hm hk
    rcases List.mem_cons.mp hm with rfl | hm
    · have hc : ctorOk uc = true := hsucc uc (List.mem_cons_self _ _) hk
      simp only [initLoop, hk, if_true, hc]
      apply initLoop_camera_models_mono
      by_cases hv : uc ∈ s.camera_models
      · simp [hv]
      · simp [hv]
    · by_cases hkv : v ∈ knownUseCases
      · have hc : ctorOk v = true := hsucc v (List.mem_cons_self _ _) hkv
        simp only [initLoop, hkv, if_true, hc]
        exact ih _ (fun w hw => hsucc w (List.mem_cons_of_mem _ hw)) uc hm hk
      · simp only [initLoop, hkv, if_false]
        exact ih _ (fun w hw => hsucc w (List.mem_cons_of_mem _ hw)) uc hm hk

/-- The marking invariant: every constructed model's enabled flag agrees with
membership of its use case in `enabled_use_cases`.  The construction loop
preserves it. -/
def MarkedFromEnabled (s : FlexibleCameraStream) : Prop :=
  ∀ uc ∈ s.camera_models,
    dictGetD s.model_enabled uc false = decide (uc ∈ s.enabled_use_cases)

theorem initLoop_marked (ctorOk : String → Bool) (l : List String)
    (s : FlexibleCameraStream) (hp : MarkedFromEnabled s) :
    MarkedFromEnabled ((initLoop ctorOk s l).1) := by
  induction l generalizing s with
  | nil => exact hp
  | cons v rest ih =>
    by_cases hk : v ∈ knownUseCases
    · by_cases hc : ctorOk v
      · simp only [initLoop, hk, if_true, hc]
        apply ih
        intro uc hm
        by_cases hv : uc = v
        · subst hv
          simp [dictGetD_dictSet_self]
        · have hm' : uc ∈ s.camera_models := by
            by_cases hvm : v ∈ s.camera_models
            · simpa [hvm] using hm
            · simp only [hvm, if_false, List.mem_append,
                List.mem_singleton] at hm
              rcases hm with hm | rfl
              · exact hm
              · exact absurd rfl hv
          simpa [dictGetD_dictSet_ne _ _ _ hv] using hp uc hm'
      · simpa [initLoop, hk, hc] using hp
    · simp only [initLoop, hk, if_false]
      exact ih _ hp

theorem runOps_fst_frame_count_le (ops : List WorkerOp)
    (s : FlexibleCameraStream) :
    s.frame_count ≤ ((runOps s ops).1).frame_count := by
  induction ops generalizing s with
  | nil => exact le_rfl
  | cons op rest ih =>
    exact le_trans (step_fst_frame_count_le s op) (ih _)

theorem runOps_emit_gt (ops : List WorkerOp) (s : FlexibleCameraStream)
    (r : FrameResult) (h : r ∈ (runOps s ops).2) :
    s.frame_count < r.frame_count := by
  induction ops generalizing s with
  | nil => simp [runOps] at h
  | cons op rest ih =>
    simp only [runOps, List.mem_append] at h
    rcases h with h | h
    · cases hp : (s.step op).2 with
      | none => simp [hp] at h
      | some r' =>
        simp only [hp, Option.toList_some, List.mem_singleton] at h
        subst h
        have := (step_emit s op r hp).1
        omega
    · have h1 := ih ((s.step op).1) h
      have h2 := step_fst_frame_count_le s op
      omega

theorem disable_fst_getD_false (s : FlexibleCameraStream) (uc w : String)
    (h : dictGetD s.model_enabled w false = false) :
    dictGetD ((s.disable_use_case uc).1).model_enabled w false = false := by
  by_cases hm : uc ∈ s.camera_models
  · simp only [FlexibleCameraStream.disable_use_case, hm, if_true]
    by_cases hw : w = uc
    · subst hw
      simp [dictGetD_dictSet_self]
    · simpa [dictGetD_dictSet_ne _ _ _ hw] using h
  · simpa [FlexibleCameraStream.disable_use_case, hm] using h

theorem disable_fst_getD_self (s : FlexibleCameraStream) (uc : String)
    (h : uc ∈ s.camera_models) :
    dictGetD ((s.disable_use_case uc).1).model_enabled uc false = false := by
  simp [FlexibleCameraStream.disable_use_case, h, dictGetD_dictSet_self]

/-- Folding `disable_use_case` over a list of use cases: the model key set is
unchanged and every enabled flag that was already cleared, or whose use case
occurs in the list and has a model, ends up cleared. -/
theorem foldl_disable_spec (l : List String) :
    ∀ (s : FlexibleCameraStream),
      ((l.foldl (fun st uc => (st.disable_use_case uc).1) s).camera_models
          = s.camera_models) ∧
      ∀ w, ((w ∈ l ∧ w ∈ s.camera_models) ∨
              dictGetD s.model_enabled w false = false) →
        dictGetD
          (l.foldl (fun st uc => (st.disable_use_case uc).1) s).model_enabled
          w false = false := by
  induction l with
  | nil =>
    intro s
    refine ⟨rfl, ?_⟩
    intro w hw
    rcases hw with ⟨hl, _⟩ | hf
    · simp at hl
    · exact hf
  | cons uc rest ih =>
    intro s
    have hcm := disable_fst_camera_models s uc
    constructor
    · simpa [List.foldl_cons, hcm] using (ih ((s.disable_use_case uc).1)).1
    · intro w hw
      simp only [List.foldl_cons]
      apply (ih ((s.disable_use_case uc).1)).2
      rcases hw with ⟨hl, hm⟩ | hf
      · rcases List.mem_cons.mp hl with rfl | hl
        · exact Or.inr (disable_fst_getD_self s w hm)
        · exact Or.inl ⟨hl, by simpa [hcm] using hm⟩
      · exact Or.inr (disable_fst_getD_false s uc w hf)

/-- After `disableAll`, the enabled-model snapshot is empty. -/
theorem disableAll_enabledModels (s : FlexibleCameraStream) :
    (s.disableAll).enabledModels = [] := by
  have h := foldl_disable_spec s.camera_models s
  unfold FlexibleCameraStream.disableAll FlexibleCameraStream.enabledModels
  rw [h.1]
  rw [List.filter_eq_nil_iff]
  intro w hw
  simp [h.2 w (Or.inl ⟨hw, hw⟩)]

/-- A successful cycle with an empty enabled-model snapshot yields a result
with no events. -/
theorem process_frame_empty_snapshot (s : FlexibleCameraStream)
    (cap : CapBehaviour) (r : FrameResult) (hem : s.enabledModels = [])
    (h : (s.process_frame CycleOutcome.ok cap).2 = some r) :
    r.all_events = [] ∧ r.has_events = false := by
  have hem1 : ({ s with frame_count := s.frame_count + 1 } :
      FlexibleCameraStream).enabledModels = s.enabledModels := rfl
  simp only [FlexibleCameraStream.process_frame, Option.some.injEq] at h
  subst h
  simp [hem1, hem, fanOut]

/-- Cycles leave the enabled-model snapshot untouched, so once it is empty
every later cycle in a cycles-only run emits an event-free result. -/
theorem runOps_cycles_empty_snapshot (ops : List WorkerOp) :
    ∀ (s : FlexibleCameraStream),
      (∀ op ∈ ops, op.isCycle = true) → s.enabledModels = [] →
      ∀ r ∈ (runOps s ops).2, r.all_events = [] ∧ r.has_events = false := by
  induction ops with
  | nil => intro s _ _ r hr; simp [runOps] at hr
  | cons op rest ih =>
    intro s hcyc hem r hr
    obtain ⟨o, cap, rfl⟩ :
        ∃ o cap, op = WorkerOp.cycle o cap := by
      cases op with
      | cycle o cap => exact ⟨o, cap, rfl⟩
      | enable uc => simpa [WorkerOp.isCycle] using hcyc _ (List.mem_cons_self _ _)
      | disable uc => simpa [WorkerOp.isCycle] using hcyc _ (List.mem_cons_self _ _)
    simp only [runOps, FlexibleCameraStream.step, List.mem_append] at hr
    have hem' : ((s.process_frame o cap).1).enabledModels = [] := by
      rw [process_frame_fst_enabledModels]; exact hem
    rcases hr with hr | hr
    · cases o with
      | readFail => simp [FlexibleCameraStream.process_frame] at hr
      | inferFail => simp [FlexibleCameraStream.process_frame] at hr
      | ok =>
        cases hp : (s.process_frame CycleOutcome.ok cap).2 with
        | none => simp [hp] at hr
        | some r' =>
          simp only [hp, Option.toList_some, List.mem_singleton] at hr
          subst hr
          exact process_frame_empty_snapshot s cap r hem hp
    · exact ih _ (fun w hw => hcyc w (List.mem_cons_of_mem _ hw)) hem' r hr

/-- Loading configurations with pairwise-distinct fresh camera ids appends
one stream entry per configuration, in order. -/
theorem loadLoop_eq (configs : List CameraConfig) :
    ∀ (m : List (String × FlexibleCameraStream)),
      (∀ c ∈ configs, ∀ p ∈ m, p.1 ≠ c.camera_id) →
      (configs.map CameraConfig.camera_id).Nodup →
      configs.foldl
          (fun acc c =>
            dictSet acc c.camera_id (FlexibleCameraStream.ofConfig c)) m =
        m ++ configs.map
          (fun c => (c.camera_id, FlexibleCameraStream.ofConfig c)) := by
  induction configs with
  | nil => intro m _ _; simp
  | cons c rest ih =>
    intro m hfresh hnodup
    have hstep :
        dictSet m c.camera_id (FlexibleCameraStream.ofConfig c) =
          m ++ [(c.camera_id, FlexibleCameraStream.ofConfig c)] :=
      dictSet_of_not_mem m c.camera_id _
        (fun p hp => hfresh c (List.mem_cons_self _ _) p hp)
    simp only [List.map_cons, List.nodup_cons] at hnodup
    simp only [List.foldl_cons, hstep]
    rw [ih (m ++ [(c.camera_id, FlexibleCameraStream.ofConfig c)]) ?_ hnodup.2]
    · simp
    · intro c' hc' p hp
      rcases List.mem_append.mp hp with hp | hp
      · exact hfresh c' (List.mem_cons_of_mem _ hc') p hp
      · rcases List.mem_singleton.mp hp with rfl
        intro hid
        apply hnodup.1
        have hid' : c.camera_id = c'.camera_id := hid
        rw [hid']
        exact List.mem_map_of_mem CameraConfig.camera_id hc'

/-- The shutdown drain saves everything that was pending, one get-iteration
per item. -/
theorem eventSavingDrain_spec (pending : List FrameResult) :
    (eventSavingDrain pending).1 = pending ∧
      (eventSavingDrain pending).2 = pending.length := by
  induction pending with
  | nil => exact ⟨rfl, rfl⟩
  | cons r rest ih => simp [eventSavingDrain, ih.1, ih.2]

/-! ### Lemmas about the single-use-case `CameraStream` -/

theorem single_process_frame_count_le (s : CameraStream) (o : CycleOutcome)
    (ds : List Detection) :
    s.frame_count ≤ ((s.process_frame o ds).1).frame_count := by
  cases o <;> simp [CameraStream.process_frame]

theorem single_process_frame_emit (s : CameraStream) (o : CycleOutcome)
    (ds : List Detection) (r : SingleResult)
    (h : (s.process_frame o ds).2 = some r) :
    r.frame_count = s.frame_count + 1 ∧
      ((s.process_frame o ds).1).frame_count = s.frame_count + 1 := by
  cases o with
  | readFail => simp [CameraStream.process_frame] at h
  | inferFail => simp [CameraStream.process_frame] at h
  | ok =>
    simp only [CameraStream.process_frame, Option.some.injEq] at h
    subst h
    exact ⟨rfl, rfl⟩

theorem runSingleCycles_fst_frame_count_le
    (cs : List (CycleOutcome × List Detection)) (s : CameraStream) :
    s.frame_count ≤ ((runSingleCycles s cs).1).frame_count := by
  induction cs generalizing s with
  | nil => exact le_rfl
  | cons c rest ih =>
    exact le_trans (single_process_frame_count_le s c.1 c.2) (ih _)

theorem runSingleCycles_emit_gt (cs : List (CycleOutcome × List Detection))
    (s : CameraStream) (r : SingleResult)
    (h : r ∈ (runSingleCycles s cs).2) : s.frame_count < r.frame_count := by
  induction cs generalizing s with
  | nil => simp [runSingleCycles] at h
  | cons c rest ih =>
    simp only [runSingleCycles, List.mem_append] at h
    rcases h with h | h
    · cases hp : (s.process_frame c.1 c.2).2 with
      | none => simp [hp] at h
      | some r' =>
        simp only [hp, Option.toList_some, List.mem_singleton] at h
        subst h
        have := (single_process_frame_emit s c.1 c.2 r hp).1
        omega
    · have h1 := ih ((s.process_frame c.1 c.2).1) h
      have h2 := single_process_frame_count_le s c.1 c.2
      omega

theorem has_events_aux (l : List (String × List Detection)) (n : Nat)
    (hiff : l = [] ↔ n = 0) : (!l.isEmpty) = true ↔ 0 < n := by
  cases l with
  | nil =>
    have h0 : n = 0 := hiff.mp rfl
    simp [h0]
  | cons a as =>
    have h0 : n ≠ 0 := by
      intro hn
      exact absurd (hiff.mpr hn) (by simp)
    simp [Nat.pos_of_ne_zero h0]

/-- Emitted frame counters of a flexible worker run are strictly increasing. -/
theorem runOps_chain (ops : List WorkerOp) (s : FlexibleCameraStream) :
    ((runOps s ops).2.map FrameResult.frame_count).Chain' (· < ·) := by
  induction ops generalizing s with
  | nil => simp [runOps]
  | cons op rest ih =>
    simp only [runOps, List.map_append]
    cases hp : (s.step op).2 with
    | none => simpa using ih ((s.step op).1)
    | some r =>
      simp only [hp, Option.toList_some, List.map_cons, List.map_nil,
        List.singleton_append]
      rw [List.chain'_cons']
      refine ⟨?_, ih ((s.step op).1)⟩
      intro b hb
      have hbmem : b ∈ (runOps ((s.step op).1) rest).2.map
          FrameResult.frame_count := List.mem_of_mem_head? hb
      rcases List.mem_map.mp hbmem with ⟨r2, hr2, rfl⟩
      have h2 := runOps_emit_gt rest ((s.step op).1) r2 hr2
      have h3 := step_emit s op r hp
      omega

/-- Emitted frame counters of a single-use-case stream run are strictly
increasing. -/
theorem runSingleCycles_chain (cs : List (CycleOutcome × List Detection))
    (t : CameraStream) :
    ((runSingleCycles t cs).2.map SingleResult.frame_count).Chain' (· < ·) := by
  induction cs generalizing t with
  | nil => simp [runSingleCycles]
  | cons c rest ih =>
    simp only [runSingleCycles, List.map_append]
    cases hp : (t.process_frame c.1 c.2).2 with
    | none => simpa using ih ((t.process_frame c.1 c.2).1)
    | some r =>
      simp only [hp, Option.toList_some, List.map_cons, List.map_nil,
        List.singleton_append]
      rw [List.chain'_cons']
      refine ⟨?_, ih ((t.process_frame c.1 c.2).1)⟩
      intro b hb
      have hbmem : b ∈ (runSingleCycles ((t.process_frame c.1 c.2).1) rest).2.map
          SingleResult.frame_count := List.mem_of_mem_head? hb
      rcases List.mem_map.mp hbmem with ⟨r2, hr2, rfl⟩
      have h2 := runSingleCycles_emit_gt rest ((t.process_frame c.1 c.2).1) r2 hr2
      have h3 := single_process_frame_emit t c.1 c.2 r hp
      omega

/-! ## Claims -/

/-- C1: for every camera worker built from a CameraConfig (whose data-model
invariant `enabled_use_cases ⊆ available_use_cases` holds, as the spec's
CameraConfig definition requires) and every sequence of frame cycles and
enable/disable calls, `enabled_use_cases ⊆ available_use_cases` holds after
every mutation; and an enable request for a use case outside
`available_use_cases` returns failure and leaves the worker unchanged. -/
theorem C1_enabled_subset_available (cfg : CameraConfig)
    (ctorOk : String → Bool) (ops : List WorkerOp)
    (hsub : cfg.enabled_use_cases ⊆ cfg.available_use_cases) :
    let s :=
      (runOps ((FlexibleCameraStream.ofConfig cfg).initializeWorker ctorOk).1 ops).1
    s.enabled_use_cases ⊆ s.available_use_cases ∧
      ∀ uc, uc ∉ s.available_use_cases → s.enable_use_case uc = (s, false) := by
  intro s
  have hwf0 : (((FlexibleCameraStream.ofConfig cfg).initializeWorker ctorOk).1).Wf := by
    constructor
    · rw [FlexibleCameraStream.initializeWorker, initLoop_fst_enabled,
        initLoop_fst_available]
      exact hsub
    · intro x hx
      rw [FlexibleCameraStream.initializeWorker, initLoop_fst_available]
      rcases initLoop_camera_models_mem ctorOk _ _ x hx with hin | ⟨hl, _⟩
      · simp [FlexibleCameraStream.ofConfig] at hin
      · exact hl
  have hwf : s.Wf := runOps_Wf ops _ hwf0
  refine ⟨hwf.1, ?_⟩
  intro uc h
  exact enable_not_available s uc (fun hm => h (hwf.2 hm))

theorem C1_enabled_subset_available_witness :
    c1cfg.enabled_use_cases ⊆ c1cfg.available_use_cases ∧
      (let s :=
        (runOps ((FlexibleCameraStream.ofConfig c1cfg).initializeWorker
            (fun _ => true)).1
          [WorkerOp.enable "ppe_detection",
           WorkerOp.disable "people_counting"]).1
       s.enabled_use_cases ⊆ s.available_use_cases ∧
         ∀ uc, uc ∉ s.available_use_cases →
           s.enable_use_case uc = (s, false)) :=
  ⟨by decide,
   C1_enabled_subset_available c1cfg (fun _ => true)
     [WorkerOp.enable "ppe_detection", WorkerOp.disable "people_counting"]
     (by decide)⟩

/-- C7 counterexample: on a worker with people_counting available and already
enabled, `enable_use_case` is an idempotent no-op on the enabled list, but
`disable_use_case` removes the entry, so the enable/disable pair does not
restore the prior enabled set: it ends empty instead of
`["people_counting"]`. -/
theorem C7_roundtrip_counterexample :
    ((((c7state.enable_use_case "people_counting").1).disable_use_case
        "people_counting").1).enabled_use_cases ≠
      c7state.enabled_use_cases := by
  decide

/-- C7 amended: calling `enable_use_case u` and then `disable_use_case u`
restores the enabled use-case list exactly, provided `u` was not already
enabled before the pair of calls (if it was, the pair removes it). -/
theorem C7_roundtrip_of_not_enabled (s : FlexibleCameraStream) (uc : String)
    (h : uc ∉ s.enabled_use_cases) :
    ((((s.enable_use_case uc).1).disable_use_case uc).1).enabled_use_cases =
      s.enabled_use_cases := by
  by_cases hm : uc ∈ s.camera_models
  · have hmem : uc ∈ ((s.enable_use_case uc).1).camera_models := by
      rw [enable_fst_camera_models]; exact hm
    rw [disable_fst_enabled_of_mem _ _ hmem, enable_fst_enabled_of_mem _ _ hm]
    simp only [h, if_false]
    rw [List.erase_append_right _ h]
    simp
  · have he : s.enable_use_case uc = (s, false) := enable_not_available s uc hm
    rw [he]
    have hd : s.disable_use_case uc = (s, false) := disable_not_available s uc hm
    rw [hd]

theorem C7_roundtrip_of_not_enabled_witness :
    "ppe_detection" ∉
        (((FlexibleCameraStream.ofConfig c1cfg).initializeWorker
            (fun _ => true)).1).enabled_use_cases ∧
      (((((((FlexibleCameraStream.ofConfig c1cfg).initializeWorker
              (fun _ => true)).1).enable_use_case
            "ppe_detection").1).disable_use_case
          "ppe_detection").1).enabled_use_cases =
        (((FlexibleCameraStream.ofConfig c1cfg).initializeWorker
            (fun _ => true)).1).enabled_use_cases :=
  ⟨by decide,
   C7_roundtrip_of_not_enabled
     (((FlexibleCameraStream.ofConfig c1cfg).initializeWorker (fun _ => true)).1)
     "ppe_detection" (by decide)⟩

/-- C2 counterexample: the orchestrator's event queue is `queue.Queue()` with
maxsize 0 — not bounded — and three successive puts all append: nothing is
ever dropped and no dropped-event counter exists anywhere in the processor
state, refuting the bounded-queue drop-newest-with-counter claim. -/
theorem C2_bounded_queue_counterexample :
    ¬ FlexibleMultiCameraProcessor.new.event_queue.bounded ∧
      ((FlexibleMultiCameraProcessor.new.event_queue.put r0).bind
          (fun q => q.put r0)).bind (fun q => q.put r0) =
        some ⟨0, [r0, r0, r0]⟩ := by
  constructor
  · simp [FlexibleMultiCameraProcessor.new, EventQueue.bounded]
  · rfl

/-- C2 amended: the worker's enqueue is indeed non-blocking, but only because
the event queue is unbounded (`queue.Queue()`, maxsize 0): a put always
appends the newest result, nothing is ever dropped, and no dropped-event
counter is maintained. -/
theorem C2_unbounded_put_never_blocks (q : EventQueue) (r : FrameResult)
    (h : q.maxsize = 0) :
    q.put r = some ⟨0, q.items ++ [r]⟩ ∧
      ∀ res : Option FrameResult, (workerEnqueue q res).isSome = true := by
  have hput : q.put r = some ⟨0, q.items ++ [r]⟩ := by
    cases q with
    | mk ms items =>
      cases h
      simp [EventQueue.put, EventQueue.full]
  refine ⟨hput, ?_⟩
  intro res
  cases res with
  | none => simp [workerEnqueue]
  | some r' =>
    by_cases he : r'.has_events
    · have hput' : q.put r' = some ⟨0, q.items ++ [r']⟩ := by
        cases q with
        | mk ms items =>
          cases h
          simp [EventQueue.put, EventQueue.full]
      simp [workerEnqueue, he, hput']
    · simp [workerEnqueue, he]

theorem C2_unbounded_put_never_blocks_witness :
    FlexibleMultiCameraProcessor.new.event_queue.maxsize = 0 ∧
      (FlexibleMultiCameraProcessor.new.event_queue.put r0 =
          some ⟨0, FlexibleMultiCameraProcessor.new.event_queue.items ++ [r0]⟩ ∧
        ∀ res : Option FrameResult,
          (workerEnqueue FlexibleMultiCameraProcessor.new.event_queue res).isSome
            = true) :=
  ⟨rfl, C2_unbounded_put_never_blocks
    FlexibleMultiCameraProcessor.new.event_queue r0 rfl⟩

/-- C3 counterexample: `stop()` waits on `event_queue.join()`, which returns
only after the drain has performed one get-iteration per pending item; no
fixed bound covers every backlog, so stop does not join the drain within a
bounded timeout. -/
theorem C3_unbounded_join_counterexample :
    ¬ ∃ b : Nat, ∀ pending : List FrameResult,
        stopQueueJoinIterations pending ≤ b := by
  rintro ⟨b, hb⟩
  have h := hb (List.replicate (b + 1) r0)
  rw [stopQueueJoinIterations, (eventSavingDrain_spec _).2,
    List.length_replicate] at h
  omega

/-- C3 amended: after stop, the drain consumer keeps going exactly while the
queue is non-empty (no grace timeout exists) and saves every pending item;
worker threads are joined with a bounded 5-second timeout, but the queue
join waits for as many consumer iterations as there are pending items. -/
theorem C3_drain_until_empty (pending : List FrameResult) :
    eventWorkerGuard false pending = !pending.isEmpty ∧
      (eventSavingDrain pending).1 = pending ∧
      stopQueueJoinIterations pending = pending.length ∧
      workerJoinTimeoutSeconds = some 5 := by
  refine ⟨rfl, (eventSavingDrain_spec pending).1, ?_, rfl⟩
  exact (eventSavingDrain_spec pending).2

/-- C4: if one enabled capability raises during a frame cycle, the worker
still produces a FrameResult for that cycle; the failed use case gets no
entry in the per-use-case event lists, and the events and total are exactly
those of the remaining enabled capabilities. -/
theorem C4_capability_fault_isolated (s : FlexibleCameraStream)
    (cap : CapBehaviour) (u : String) (hu : cap u = none) :
    ∃ r, (s.process_frame CycleOutcome.ok cap).2 = some r ∧
      (∀ ds, (u, ds) ∉ r.all_events) ∧
      r.all_events =
        (fanOut cap (s.enabledModels.filter (fun v => v != u))).1 ∧
      r.total_events =
        (fanOut cap (s.enabledModels.filter (fun v => v != u))).2 := by
  rw [fanOut_filter_of_none cap s.enabledModels u hu]
  refine ⟨_, rfl, ?_, rfl, rfl⟩
  intro ds hmem
  have := fanOut_key_some cap _ u ds hmem
  rw [hu] at this
  exact Option.noConfusion this

theorem C4_capability_fault_isolated_witness :
    c4cap "ppe_detection" = none ∧
      ∃ r, (c4state.process_frame CycleOutcome.ok c4cap).2 = some r ∧
        (∀ ds, ("ppe_detection", ds) ∉ r.all_events) ∧
        r.all_events =
          (fanOut c4cap
            (c4state.enabledModels.filter (fun v => v != "ppe_detection"))).1 ∧
        r.total_events =
          (fanOut c4cap
            (c4state.enabledModels.filter (fun v => v != "ppe_detection"))).2 :=
  ⟨rfl, C4_capability_fault_isolated c4state c4cap "ppe_detection" rfl⟩

/-- C5: within one worker, every run emits FrameResults with strictly
increasing frame_count, even across cycles that fail or produce no events;
the same holds for the single-use-case CameraStream of
multi_camera_processor.py. -/
theorem C5_frame_count_strictly_increasing (s : FlexibleCameraStream)
    (ops : List WorkerOp) (t : CameraStream)
    (cs : List (CycleOutcome × List Detection)) :
    ((runOps s ops).2.map FrameResult.frame_count).Chain' (· < ·) ∧
      ((runSingleCycles t cs).2.map SingleResult.frame_count).Chain' (· < ·) :=
  ⟨runOps_chain ops s, runSingleCycles_chain cs t⟩

/-- C6: every FrameResult of a successful cycle satisfies
`has_events = (total_events > 0)`; and once every available use case has been
disabled, all results of subsequent frame cycles have `has_events = false`
and empty per-use-case event lists. -/
theorem C6_has_events_iff_events (s : FlexibleCameraStream)
    (cap : CapBehaviour) (ops : List WorkerOp)
    (hops : ∀ op ∈ ops, op.isCycle = true) :
    (∀ r, (s.process_frame CycleOutcome.ok cap).2 = some r →
        (r.has_events = true ↔ 0 < r.total_events)) ∧
      ∀ r ∈ (runOps s.disableAll ops).2,
        r.has_events = false ∧ r.all_events = [] := by
  constructor
  · intro r h
    simp only [FlexibleCameraStream.process_frame, Option.some.injEq] at h
    subst h
    exact has_events_aux _ _ (fanOut_fst_eq_nil_iff cap _)
  · intro r hr
    have h := runOps_cycles_empty_snapshot ops s.disableAll hops
      (disableAll_enabledModels s) r hr
    exact ⟨h.2, h.1⟩

theorem C6_has_events_iff_events_witness :
    (∀ op ∈ [WorkerOp.cycle CycleOutcome.ok c4cap], op.isCycle = true) ∧
      ((∀ r, (c4state.process_frame CycleOutcome.ok c4cap).2 = some r →
          (r.has_events = true ↔ 0 < r.total_events)) ∧
        ∀ r ∈ (runOps c4state.disableAll
            [WorkerOp.cycle CycleOutcome.ok c4cap]).2,
          r.has_events = false ∧ r.all_events = []) :=
  ⟨by intro op hop; rcases List.mem_singleton.mp hop with rfl; rfl,
   C6_has_events_iff_events c4state c4cap
     [WorkerOp.cycle CycleOutcome.ok c4cap]
     (by intro op hop; rcases List.mem_singleton.mp hop with rfl; rfl)⟩

/-- C8 counterexample: both available use cases are known, the
people_counting constructor raises while ppe_detection's succeeds, yet
`initialize` returns failure — one capability's construction failure is not
tolerated even though another capability could be constructed. -/
theorem C8_partial_failure_counterexample :
    c8ctor "ppe_detection" = true ∧
      ((FlexibleCameraStream.ofConfig c8cfg).initializeWorker c8ctor).2 = false := by
  constructor
  · rfl
  · decide

/-- C8 amended: initialization constructs one capability per known entry of
available_use_cases, marking each enabled according to the initial enabled
set, and reports success iff every known entry's constructor succeeds: it
succeeds even when zero capabilities are constructed (all entries unknown),
and the first raising constructor aborts it with failure. -/
theorem C8_initialize_success_iff (cfg : CameraConfig)
    (ctorOk : String → Bool) :
    (((FlexibleCameraStream.ofConfig cfg).initializeWorker ctorOk).2 = true ↔
        ∀ uc ∈ cfg.available_use_cases,
          uc ∈ knownUseCases → ctorOk uc = true) ∧
      MarkedFromEnabled
        (((FlexibleCameraStream.ofConfig cfg).initializeWorker ctorOk).1) := by
  constructor
  · exact initLoop_snd_iff ctorOk cfg.available_use_cases _
  · apply initLoop_marked
    intro uc hm
    simp [FlexibleCameraStream.ofConfig] at hm

/-- C9 counterexample: a configuration violating enabled ⊆ available is
loaded without rejection — `load_camera_configurations` has no failure path
and stores a worker for the invalid entry verbatim, so no validation of the
invariant occurs. -/
theorem C9_no_validation_counterexample :
    ¬ c9bad.enabled_use_cases ⊆ c9bad.available_use_cases ∧
      (FlexibleMultiCameraProcessor.new.load_camera_configurations
          [c9bad]).camera_streams =
        [("cam_x", FlexibleCameraStream.ofConfig c9bad)] := by
  constructor
  · decide
  · rfl

/-- C9 amended: loading performs no validation; for configurations with
distinct camera ids it constructs exactly one camera worker per entry keyed
by its camera_id, and starts nothing: the processor stays stopped and every
constructed worker's running flag is false. -/
theorem C9_load_constructs_without_start (configs : List CameraConfig)
    (hids : (configs.map CameraConfig.camera_id).Nodup) :
    let p :=
      FlexibleMultiCameraProcessor.new.load_camera_configurations configs
    p.camera_streams =
        configs.map (fun c => (c.camera_id, FlexibleCameraStream.ofConfig c)) ∧
      p.running = false ∧
      ∀ e ∈ p.camera_streams, e.2.running = false := by
  intro p
  have h := loadLoop_eq configs [] (by simp) hids
  have hstreams : p.camera_streams =
      configs.map (fun c => (c.camera_id, FlexibleCameraStream.ofConfig c)) := by
    simpa [FlexibleMultiCameraProcessor.load_camera_configurations,
      FlexibleMultiCameraProcessor.new] using h
  refine ⟨hstreams, rfl, ?_⟩
  intro e he
  rw [hstreams] at he
  rcases List.mem_map.mp he with ⟨c, _, rfl⟩
  rfl

theorem C9_load_constructs_without_start_witness :
    (([c1cfg, c9bad].map CameraConfig.camera_id)).Nodup ∧
      (let p :=
        FlexibleMultiCameraProcessor.new.load_camera_configurations
          [c1cfg, c9bad]
       p.camera_streams =
          [c1cfg, c9bad].map
            (fun c => (c.camera_id, FlexibleCameraStream.ofConfig c)) ∧
        p.running = false ∧
        ∀ e ∈ p.camera_streams, e.2.running = false) :=
  ⟨by decide, C9_load_constructs_without_start [c1cfg, c9bad] (by decide)⟩

/-- C10: a name in available_use_cases outside the five known use-case
identifiers is skipped at initialization without failing it (given the known
constructors succeed): no capability is created for it,
get_available_use_cases omits it, and a later enable_use_case for it fails
and leaves the worker unchanged — even though the configuration listed it as
available. -/
theorem C10_unknown_use_case_skipped (cfg : CameraConfig)
    (ctorOk : String → Bool) (u : String)
    (_hmem : u ∈ cfg.available_use_cases) (hu : u ∉ knownUseCases)
    (hctor : ∀ v ∈ cfg.available_use_cases,
      v ∈ knownUseCases → ctorOk v = true) :
    let si := (FlexibleCameraStream.ofConfig cfg).initializeWorker ctorOk
    si.2 = true ∧ u ∉ si.1.get_available_use_cases ∧
      si.1.enable_use_case u = (si.1, false) := by
  intro si
  have hnotm : u ∉ si.1.camera_models := by
    intro h
    rcases initLoop_camera_models_mem ctorOk _ _ u h with hin | ⟨_, hkn⟩
    · simp [FlexibleCameraStream.ofConfig] at hin
    · exact hu hkn
  exact ⟨(initLoop_snd_iff ctorOk cfg.available_use_cases _).mpr hctor,
    hnotm, enable_not_available _ _ hnotm⟩

theorem C10_unknown_use_case_skipped_witness :
    ("face_recognition" ∈ c10cfg.available_use_cases ∧
        "face_recognition" ∉ knownUseCases ∧
        ∀ v ∈ c10cfg.available_use_cases,
          v ∈ knownUseCases → (fun _ => true : String → Bool) v = true) ∧
      (let si := (FlexibleCameraStream.ofConfig c10cfg).initializeWorker
        (fun _ => true)
       si.2 = true ∧ "face_recognition" ∉ si.1.get_available_use_cases ∧
        si.1.enable_use_case "face_recognition" = (si.1, false)) :=
  ⟨⟨by decide, by decide, by decide⟩,
   C10_unknown_use_case_skipped c10cfg (fun _ => true) "face_recognition"
     (by decide) (by decide) (by decide)⟩

end MultiCam
